import Mathlib

/-!
Shallow embedding of `src/jira-worklogs.py` (class `JiraClient`) and proofs
about its pagination, synchronization, date-filtering and attribution logic.

Remote HTTP servers are modelled as pure functions from the request data the
source sends (offset/limit, url, id batch, jql string) to the parsed JSON
response the source reads.  Generators are modelled with explicit fuel: a run
returns `none` when the fuel is exhausted (the loop did not finish within that
many iterations), `some (.error s)` when `raise_for_status` raises for HTTP
status `s`, and `some (.ok v)` when the generator is exhausted normally.
-/

/-- Parsed JSON response of an offset/total-paginated endpoint, as read by
`_get_paginated_results`: the `results_key` field (`.get(results_key, [])`,
so a missing field is the empty list), and optional `maxResults` and `total`
fields (read with `.get("maxResults", ...)` / `.get("total", 0)`).
`status` is the HTTP status code checked by `raise_for_status`. -/
structure OffsetResponse (R : Type) where
  status : Nat := 200
  results : List R := []
  maxResults : Option Nat := none
  total : Option Nat := none

/-- Embedding of `JiraClient._get_paginated_results`.  `server startAt maxR`
is the parsed response to the page request with `startAt`/`maxResults`
parameters.  Arguments after the server: fuel, current `results_per_page`
(initially 1000), current `count_next` (initially 0).  On success it returns
the yielded records in order together with the list of
`(startAt, maxResults)` request parameters issued, in order. -/
def _get_paginated_results {R : Type} (server : Nat → Nat → OffsetResponse R) :
    Nat → Nat → Nat → Option (Except Nat (List R × List (Nat × Nat)))
  | 0, _, _ => none
  | fuel + 1, rpp, count =>
    let resp := server count rpp
    if 400 ≤ resp.status then some (.error resp.status)
    else
      let rpp' := if resp.maxResults.getD rpp < rpp then resp.maxResults.getD rpp else rpp
      let count' := count + rpp'
      if resp.total.getD 0 ≤ count' then some (.ok (resp.results, [(count, rpp)]))
      else
        match _get_paginated_results server fuel rpp' count' with
        | none => none
        | some (.error s) => some (.error s)
        | some (.ok (rest, reqs)) => some (.ok (resp.results ++ rest, (count, rpp) :: reqs))

/-- Parsed JSON response of a cursor-paginated endpoint, as read by
`_get_paginated_results_with_next_page_link`: `values` (`.get("values", [])`),
`lastPage` (`.get("lastPage", True)`) and `nextPage` (`response_json["nextPage"]`,
raising when the key is missing).  The url type `U` is opaque to the source,
which only passes it back to the transport. -/
structure CursorResponse (U R : Type) where
  status : Nat := 200
  values : List R := []
  lastPage : Option Bool := none
  nextPage : Option U := none

/-- Embedding of `JiraClient._get_paginated_results_with_next_page_link`.
`server url` is the parsed response to a GET of `url`.  A missing `nextPage`
key on a non-last page raises `KeyError` in the source; it is modelled as the
error result `.error 0`. -/
def _get_paginated_results_with_next_page_link {U R : Type}
    (server : U → CursorResponse U R) : Nat → U → Option (Except Nat (List R × Nat))
  | 0, _ => none
  | fuel + 1, url =>
    let resp := server url
    if 400 ≤ resp.status then some (.error resp.status)
    else if resp.lastPage.getD true then some (.ok (resp.values, 1))
    else
      match resp.nextPage with
      | none => some (.error 0)
      | some next =>
        match _get_paginated_results_with_next_page_link server fuel next with
        | none => none
        | some (.error s) => some (.error s)
        | some (.ok (rest, n)) => some (.ok (resp.values ++ rest, n + 1))

/-- Offset server that owns the fixed record list `L`: it answers the request
at `startAt` with the slice of `L` of the requested length, echoes the
requested page size back and reports the fixed total `L.length`. -/
def pagedServer {R : Type} (L : List R) : Nat → Nat → OffsetResponse R :=
  fun startAt maxR =>
    { status := 200, results := (L.drop startAt).take maxR,
      maxResults := some maxR, total := some L.length }

/-- Offset server that caps the page size at `cap` (as some endpoints do):
it serves at most `cap` records per page and reports the page size it
actually used in `maxResults`, with the fixed total `L.length`. -/
def cappedServer {R : Type} (L : List R) (cap : Nat) : Nat → Nat → OffsetResponse R :=
  fun startAt maxR =>
    { status := 200, results := (L.drop startAt).take (min maxR cap),
      maxResults := some (min maxR cap), total := some L.length }

/-- Cursor server serving the finite chain of pages `pages`, with page
indices as urls: page `i` carries `pages[i]`, is marked last exactly when it
is the final page, and links to page `i + 1` otherwise. -/
def chainServer {R : Type} (pages : List (List R)) : Nat → CursorResponse Nat R :=
  fun i =>
    { status := 200, values := ((pages.drop i).head?).getD [],
      lastPage := some (decide (pages.length ≤ i + 1)), nextPage := some (i + 1) }

/-- Boolean test that the chain of `nextPage` links starting at `u` reaches a
response with `lastPage = true` within `n` link follows. -/
def chainEndsWithin {U R : Type} (server : U → CursorResponse U R) : Nat → U → Bool
  | 0, u => (server u).lastPage.getD true
  | n + 1, u =>
    (server u).lastPage.getD true ||
      match (server u).nextPage with
      | none => false
      | some v => chainEndsWithin server n v

/-- Cursor server whose every response is a well-formed non-last page linking
back to itself: each page is individually well formed, yet the chain never
reaches a last page. -/
def selfLoopServer : Unit → CursorResponse Unit Nat :=
  fun _ => { status := 200, values := [], lastPage := some false, nextPage := some () }

/-- Last element of a list, as an `Option` (mirrors which value survives when
a Python dict is built from a sequence of key/value pairs with equal keys). -/
def lastV {α : Type} : List α → Option α
  | [] => none
  | [a] => some a
  | _ :: b :: t => lastV (b :: t)

/-- Embedding of the Python dict assignment `worklogs_by_id[k] = v`: replace
the value in place when the key is present (dicts keep insertion order),
otherwise append the new binding. -/
def dictInsert {W : Type} : List (String × W) → String → W → List (String × W)
  | [], k, v => [(k, v)]
  | (k', v') :: t, k, v =>
    if k' == k then (k, v) :: t else (k', v') :: dictInsert t k v

/-- Python dict lookup on the insertion-ordered binding list. -/
def dictLookup {W : Type} : List (String × W) → String → Option W
  | [], _ => none
  | (k', v) :: t, k => if k' == k then some v else dictLookup t k

/-- Embedding of the batching list comprehension in
`retrieve_worklogs_updated_since`:
`[worklog_ids[i : i + 1000] for i in range(0, len(worklog_ids), 1000)]`. -/
def ids_in_groups_per_page (worklog_ids : List String) : List (List String) :=
  (List.range ((worklog_ids.length + 999) / 1000)).map
    (fun j => (worklog_ids.drop (1000 * j)).take 1000)

/-- Embedding of the bulk-fetch phase of
`JiraClient.retrieve_worklogs_updated_since`.  The id-discovery phase (the
cursor paginator over `/worklog/updated`) is modelled by the `worklog_ids`
parameter; `server batch` is the parsed JSON array answered by one
`POST /worklog/list` call for that id batch, and `wid` reads the `id` field
of a returned worklog object.  Each fetched record is written into the
id-keyed dict `worklogs_by_id`, and the dict's values are returned. -/
def retrieve_worklogs_updated_since {W : Type} (wid : W → String)
    (server : List String → List W) (worklog_ids : List String) : List W :=
  let groups := ids_in_groups_per_page worklog_ids
  let worklogs_by_id :=
    groups.foldl
      (fun m ids_to_get =>
        (server ids_to_get).foldl (fun m wl => dictInsert m (wid wl) wl) m)
      ([] : List (String × W))
  worklogs_by_id.map Prod.snd

/-- Calendar date as produced by `datetime.strptime(started[:10], "%Y-%m-%d")`. -/
structure Date where
  year : Nat
  month : Nat
  day : Nat
deriving DecidableEq

/-- Strict lexicographic order on dates (the order Python's `datetime` uses
on its leading components). -/
def Date.ltB (a b : Date) : Bool :=
  decide (a.year < b.year) ||
    (decide (a.year = b.year) &&
      (decide (a.month < b.month) ||
        (decide (a.month = b.month) && decide (a.day < b.day))))

/-- Non-strict lexicographic order on dates. -/
def Date.leB (a b : Date) : Bool :=
  Date.ltB a b || decide (a = b)

/-- Python `datetime` value: a calendar date plus the time of day (the
`hour/minute/second/microsecond` components, collapsed to one number;
`strptime("%Y-%m-%d")` leaves it at 0). -/
structure PyDateTime where
  date : Date
  tod : Nat
deriving DecidableEq

/-- Python `datetime` comparison `a <= b`: lexicographic on
(date components, time of day). -/
def PyDateTime.leB (a b : PyDateTime) : Bool :=
  Date.ltB a.date b.date || (decide (a.date = b.date) && decide (a.tod ≤ b.tod))

/-- Numeric value of a decimal digit character. -/
def digitVal (c : Char) : Nat := c.toNat - 48

/-- Embedding of `datetime.strptime(s[:10], "%Y-%m-%d")`: parse the first ten
characters of `s` as `YYYY-MM-DD`.  `none` models the `ValueError` that
`strptime` raises on malformed input (the day-of-month upper bound is
simplified to 31 for every month). -/
def parseDate10 (s : String) : Option Date :=
  match s.toList.take 10 with
  | [y1, y2, y3, y4, h1, m1, m2, h2, d1, d2] =>
    if y1.isDigit ∧ y2.isDigit ∧ y3.isDigit ∧ y4.isDigit ∧ h1 = '-' ∧
        m1.isDigit ∧ m2.isDigit ∧ h2 = '-' ∧ d1.isDigit ∧ d2.isDigit then
      let y := 1000 * digitVal y1 + 100 * digitVal y2 + 10 * digitVal y3 + digitVal y4
      let m := 10 * digitVal m1 + digitVal m2
      let d := 10 * digitVal d1 + digitVal d2
      if 1 ≤ m ∧ m ≤ 12 ∧ 1 ≤ d ∧ d ≤ 31 then some ⟨y, m, d⟩ else none
    else none
  | _ => none

/-- One row of the normalized worklog data (the columns
`worklogs_to_dataframe` keeps, which are also the fields the sync and filter
code reads from the raw worklog JSON objects). -/
structure WorklogRow where
  id : String
  issueId : String
  author_displayName : String
  started : String
  timeSpentSeconds : Nat
  updated : String
deriving DecidableEq

/-- Inclusion decision of the filter comprehension in
`retrieve_worklogs_in_date_range`:
`start_date <= datetime.strptime(worklog["started"][:10], "%Y-%m-%d") <= end_date`.
`none` models the exception raised when `started` does not parse. -/
def keep_started (start_date end_date : PyDateTime) (started : String) : Option Bool :=
  (parseDate10 started).map
    (fun d => PyDateTime.leB start_date ⟨d, 0⟩ && PyDateTime.leB ⟨d, 0⟩ end_date)

/-- Embedding of the filtering stage of
`JiraClient.retrieve_worklogs_in_date_range`: the list comprehension over
`all_worklogs` (the result of `retrieve_worklogs_updated_since(start_date)`,
modelled here as the input list).  A `started` value that fails to parse
raises in the source, modelled as `none` for the whole run. -/
def retrieve_worklogs_in_date_range (start_date end_date : PyDateTime) :
    List WorklogRow → Option (List WorklogRow)
  | [] => some []
  | w :: ws =>
    match keep_started start_date end_date w.started,
        retrieve_worklogs_in_date_range start_date end_date ws with
    | some true, some rest => some (w :: rest)
    | some false, some rest => some rest
    | _, _ => none

/-- Specification-side predicate, following the claim's words: the worklog's
`started` calendar date lies within `[start_date, end_date]`, both endpoints
inclusive, where the bounds are calendar dates. -/
def startedInRange (sd ed : Date) (w : WorklogRow) : Bool :=
  match parseDate10 w.started with
  | some d => Date.leB sd d && Date.leB d ed
  | none => false

/-- First-occurrence-order deduplication, modelling the Python set
`{worklog["issueId"] for worklog in worklogs}` (whose iteration order is
unspecified; this model fixes first-seen order, which is immaterial for the
empty input the claims are about). -/
def dedupFirst (l : List String) : List String :=
  l.foldl (fun acc a => if a ∈ acc then acc else acc ++ [a]) []

/-- The JQL filter expression built by `retrieve_issues_for_worklogs`:
`f"id in ({','.join(str(issue_id) for issue_id in issue_ids)})"`. -/
def jql_for_worklogs (worklogs : List WorklogRow) : String :=
  "id in (" ++ String.intercalate "," (dedupFirst (worklogs.map WorklogRow.issueId)) ++ ")"

/-- Embedding of `JiraClient.search_issues`: drive the offset paginator
(POST transport) against the search endpoint with the given `jql` and
`fields` parameters and collect every yielded issue.  `server jql fields
startAt maxR` is the parsed response to one search page request. -/
def search_issues {R : Type}
    (server : String → List String → Nat → Nat → OffsetResponse R)
    (jql : String) (fields : List String) (fuel : Nat) :
    Option (Except Nat (List R)) :=
  (_get_paginated_results (server jql fields) fuel 1000 0).map
    (fun e => e.map Prod.fst)

/-- Embedding of `JiraClient.retrieve_issues_for_worklogs`: collect the
distinct `issueId` values of the input worklogs, build the `id in (...)`
JQL filter over them, and run `search_issues` with it. -/
def retrieve_issues_for_worklogs {R : Type}
    (server : String → List String → Nat → Nat → OffsetResponse R)
    (worklogs : List WorklogRow) (fields : List String) (fuel : Nat) :
    Option (Except Nat (List R)) :=
  search_issues server (jql_for_worklogs worklogs) fields fuel

/-- One row of `issues_df` as consumed by `assign_proyecto_economico`, which
selects the columns `id`, `key`, `parent` (the latter renamed from
`fields.parent.key` by `issues_to_dataframe`; `NaN` for issues with no
parent, modelled as `none`).  `project` and `summary` are carried along by
the dataframe but not read by the attribution logic. -/
structure IssueRow where
  id : String
  key : String
  parent : Option String
  project : String
  summary : String
deriving DecidableEq

/-- One row of the `Tareas` mapping sheet: columns `KEY`,
`Proyecto_Economico`, `N_Proyecto_Economico`. -/
structure TareaRow where
  KEY : String
  Proyecto_Economico : String
  N_Proyecto_Economico : String
deriving DecidableEq

/-- One row of the `Epicas` mapping sheet: columns `Parent_Key`,
`Proyecto_Economico`. -/
structure EpicaRow where
  Parent_Key : String
  Proyecto_Economico : String
deriving DecidableEq

/-- One row of `merged_df` in `assign_proyecto_economico`: the worklog columns
plus the columns added by the successive merges.  `none` models `NaN`. -/
structure MergedRow where
  worklog : WorklogRow
  issue_Id : Option String := none
  issue_key : Option String := none
  parent_key : Option String := none
  Proyecto_Economico_Tareas : Option String := none
  N_Proyecto_Economico : Option String := none
  Proyecto_Economico_Epicas : Option String := none
  Proyecto_Economico : Option String := none
deriving DecidableEq

/-- Embedding of
`worklogs_df.merge(issues_filtered, left_on="issueId", right_on="issue_Id", how="left")`:
a pandas left merge keeps one row per matching right row, and one row with
`NaN` right columns when there is no match. -/
def merge_worklogs_issues (worklogs : List WorklogRow) (issues : List IssueRow) :
    List MergedRow :=
  worklogs.flatMap (fun w =>
    match issues.filter (fun i => i.id == w.issueId) with
    | [] => [{ worklog := w }]
    | ms => ms.map (fun i =>
        { worklog := w, issue_Id := some i.id, issue_key := some i.key,
          parent_key := i.parent }))

/-- Embedding of
`merged_df.merge(self.tareas_df, left_on="issue_key", right_on="KEY", how="left")`
followed by the rename of `Proyecto_Economico` to `Proyecto_Economico_Tareas`.
A `NaN` left key matches nothing. -/
def merge_tareas (tareas : List TareaRow) (rows : List MergedRow) : List MergedRow :=
  rows.flatMap (fun r =>
    match r.issue_key with
    | none => [r]
    | some k =>
      match tareas.filter (fun t => t.KEY == k) with
      | [] => [r]
      | ts => ts.map (fun t =>
          { r with Proyecto_Economico_Tareas := some t.Proyecto_Economico,
                   N_Proyecto_Economico := some t.N_Proyecto_Economico }))

/-- Embedding of
`self.epicas_df.set_index("Parent_Key")["Proyecto_Economico"].to_dict()`:
a duplicate `Parent_Key` keeps its last-loaded value. -/
def epicas_mapping (epicas : List EpicaRow) (k : String) : Option String :=
  (lastV (epicas.filter (fun e => e.Parent_Key == k))).map EpicaRow.Proyecto_Economico

/-- Embedding of
`merged_df["Proyecto_Economico_Epicas"] = merged_df["parent_key"].map(epicas_mapping)`:
a `NaN` or unmapped `parent_key` yields `NaN`. -/
def map_epicas (epicas : List EpicaRow) (rows : List MergedRow) : List MergedRow :=
  rows.map (fun r =>
    { r with Proyecto_Economico_Epicas := r.parent_key.bind (epicas_mapping epicas) })

/-- Embedding of
`merged_df["Proyecto_Economico"] = merged_df["Proyecto_Economico_Tareas"].combine_first(merged_df["Proyecto_Economico_Epicas"])`. -/
def combine_first_pe (rows : List MergedRow) : List MergedRow :=
  rows.map (fun r =>
    { r with Proyecto_Economico :=
        match r.Proyecto_Economico_Tareas with
        | some v => some v
        | none => r.Proyecto_Economico_Epicas })

/-- Embedding of `JiraClient.assign_proyecto_economico`: the staged merges
followed by the `notna`/`isna` partition into `(cruzados_df, no_cruzados_df)`. -/
def assign_proyecto_economico (tareas : List TareaRow) (epicas : List EpicaRow)
    (worklogs : List WorklogRow) (issues : List IssueRow) :
    List MergedRow × List MergedRow :=
  let merged := combine_first_pe
    (map_epicas epicas (merge_tareas tareas (merge_worklogs_issues worklogs issues)))
  (merged.filter (fun r => r.Proyecto_Economico.isSome),
   merged.filter (fun r => r.Proyecto_Economico.isNone))

/-- Specification-side lookup, following the claim's words: the issue record
referenced by the worklog's `issueId` (unique when issue ids are unique). -/
def issue_for (issues : List IssueRow) (w : WorklogRow) : Option IssueRow :=
  issues.find? (fun i => i.id == w.issueId)

/-- Specification-side lookup, following the claim's words: the task-level
mapping row matched by the worklog's issue key. -/
def tarea_for (tareas : List TareaRow) (issues : List IssueRow) (w : WorklogRow) :
    Option TareaRow :=
  (issue_for issues w).bind (fun i => tareas.find? (fun t => t.KEY == i.key))

/-- Specification-side lookup, following the claim's words: the epic-level
mapping id matched by the issue's parent key. -/
def epica_id_for (epicas : List EpicaRow) (issues : List IssueRow) (w : WorklogRow) :
    Option String :=
  ((issue_for issues w).bind IssueRow.parent).bind (epicas_mapping epicas)

/-! Helper lemmas for the date filter. -/

/-- When the start bound has time of day 0, the Python comparison of the
start bound against the parsed started date at midnight is the calendar-date
comparison. -/
theorem pyLe_left_of_tod_zero (s : PyDateTime) (d : Date) (hs : s.tod = 0) :
    PyDateTime.leB s ⟨d, 0⟩ = Date.leB s.date d := by
  simp [PyDateTime.leB, Date.leB, hs]

/-- The Python comparison of the parsed started date at midnight against the
end bound is the calendar-date comparison, whatever the end bound's time of
day. -/
theorem pyLe_right_mid (e : PyDateTime) (d : Date) :
    PyDateTime.leB ⟨d, 0⟩ e = Date.leB d e.date := by
  simp [PyDateTime.leB, Date.leB, Nat.zero_le]

/-- C4: with both bounds at midnight (the bounds used as calendar dates, as
the program's driver passes them) and every `started` value well formed, the
date-range filter keeps exactly the worklogs whose started calendar date lies
within `[start_date, end_date]`, both endpoints inclusive. -/
theorem claim_C4 (s e : PyDateTime) (ws : List WorklogRow) (hs : s.tod = 0) (he : e.tod = 0)
    (hp : ∀ w ∈ ws, (parseDate10 w.started).isSome) :
    retrieve_worklogs_in_date_range s e ws = some (ws.filter (startedInRange s.date e.date)) := by
  induction ws with
  | nil => rfl
  | cons w ws ih =>
    obtain ⟨d, hd⟩ := Option.isSome_iff_exists.mp (hp w (by simp))
    have hrest := ih (fun x hx => hp x (by simp [hx]))
    have hk : keep_started s e w.started
        = some (Date.leB s.date d && Date.leB d e.date) := by
      simp [keep_started, hd, pyLe_left_of_tod_zero s d hs, pyLe_right_mid]
    cases hb : Date.leB s.date d && Date.leB d e.date with
    | true =>
      simp [retrieve_worklogs_in_date_range, hk, hb, hrest, List.filter_cons,
        startedInRange, hd]
    | false =>
      simp [retrieve_worklogs_in_date_range, hk, hb, hrest, List.filter_cons,
        startedInRange, hd]

/-- Witness for C4 at the claim's example dates: with bounds 2024-01-01 and
2024-12-30, a worklog started on 2024-01-01 is kept and one started on
2024-12-31 is dropped, as computed by the filter on the right-hand side. -/
theorem claim_C4_witness :
    retrieve_worklogs_in_date_range ⟨⟨2024, 1, 1⟩, 0⟩ ⟨⟨2024, 12, 30⟩, 0⟩
      [⟨"1", "10", "Alice", "2024-01-01T09:00:00.000+0100", 3600, "u1"⟩,
       ⟨"2", "11", "Bob", "2024-12-31T00:30:00.000-0300", 7200, "u2"⟩]
    = some ([⟨"1", "10", "Alice", "2024-01-01T09:00:00.000+0100", 3600, "u1"⟩,
             ⟨"2", "11", "Bob", "2024-12-31T00:30:00.000-0300", 7200, "u2"⟩].filter
        (startedInRange ⟨2024, 1, 1⟩ ⟨2024, 12, 30⟩)) :=
  claim_C4 ⟨⟨2024, 1, 1⟩, 0⟩ ⟨⟨2024, 12, 30⟩, 0⟩ _ rfl rfl (by decide)

/-- C5 fails as stated: the source compares the full `start_date` datetime
against the started date at midnight, so two invocations whose start bounds
differ only in time of day (midnight versus 01:00 on the same calendar day)
disagree on a worklog started that day. -/
theorem claim_C5_counterexample :
    retrieve_worklogs_in_date_range ⟨⟨2024, 1, 1⟩, 0⟩ ⟨⟨2024, 12, 30⟩, 0⟩
      [⟨"1", "10", "Alice", "2024-01-01T10:00:00.000+0100", 3600, "u1"⟩]
    ≠ retrieve_worklogs_in_date_range ⟨⟨2024, 1, 1⟩, 3600⟩ ⟨⟨2024, 12, 30⟩, 0⟩
      [⟨"1", "10", "Alice", "2024-01-01T10:00:00.000+0100", 3600, "u1"⟩] := by
  decide

/-- C5 amended: the inclusion decision ignores the worklog's time of day and
timezone offset within its calendar day and the end bound's time of day; the
start bound's time of day, however, can change the decision (see the
counterexample), so invariance holds for a fixed start bound. -/
theorem claim_C5_amended (s e1 e2 : PyDateTime) (w1 w2 : WorklogRow)
    (he : e1.date = e2.date) (hw : parseDate10 w1.started = parseDate10 w2.started) :
    keep_started s e1 w1.started = keep_started s e2 w2.started := by
  unfold keep_started
  rw [hw]
  cases parseDate10 w2.started with
  | none => rfl
  | some d => simp [pyLe_right_mid, he]

/-- Witness for the amended C5: two worklogs started at different times of
day and offsets on 2024-05-05, with end bounds at different times of day on
the same calendar date, get the same decision. -/
theorem claim_C5_amended_witness :
    keep_started ⟨⟨2024, 5, 1⟩, 0⟩ ⟨⟨2024, 5, 5⟩, 0⟩
        (WorklogRow.started ⟨"1", "10", "A", "2024-05-05T01:00:00.000+0100", 1, "u"⟩)
    = keep_started ⟨⟨2024, 5, 1⟩, 0⟩ ⟨⟨2024, 5, 5⟩, 7200⟩
        (WorklogRow.started ⟨"2", "11", "B", "2024-05-05T23:30:00.000-0900", 2, "u"⟩) :=
  claim_C5_amended ⟨⟨2024, 5, 1⟩, 0⟩ ⟨⟨2024, 5, 5⟩, 0⟩ ⟨⟨2024, 5, 5⟩, 7200⟩
    ⟨"1", "10", "A", "2024-05-05T01:00:00.000+0100", 1, "u"⟩
    ⟨"2", "11", "B", "2024-05-05T23:30:00.000-0900", 2, "u"⟩ rfl (by decide)


/-! Issue resolution on empty input (C10). -/
/-- Search server answering every page request with an empty successful page. -/
def emptySearchServer : String → List String → Nat → Nat → OffsetResponse Nat :=
  fun _ _ _ _ => { status := 200, results := [], maxResults := some 1000, total := some 0 }

/-- C10: on an empty worklog list the constructed filter expression is the
degenerate `id in ()`, and the resolver returns the empty issue list without
failing, for every server whose response to that request is a successful
empty page reporting total 0 (the code has no local guard: the request is
issued, and the outcome is the server's answer to it). -/
theorem claim_C10 {R : Type} (server : String → List String → Nat → Nat → OffsetResponse R)
    (fields : List String) (fuel : Nat) (hfuel : 1 ≤ fuel)
    (hstatus : (server "id in ()" fields 0 1000).status < 400)
    (hresults : (server "id in ()" fields 0 1000).results = [])
    (htotal : (server "id in ()" fields 0 1000).total.getD 0 = 0) :
    jql_for_worklogs [] = "id in ()" ∧
    retrieve_issues_for_worklogs server [] fields fuel = some (.ok []) := by
  refine ⟨rfl, ?_⟩
  obtain ⟨f, rfl⟩ : ∃ f, fuel = f + 1 := ⟨fuel - 1, by omega⟩
  have hjql : jql_for_worklogs [] = "id in ()" := rfl
  unfold retrieve_issues_for_worklogs search_issues
  rw [hjql]
  unfold _get_paginated_results
  rw [if_neg (by omega), if_pos (by omega)]
  simp [hresults, Except.map]

/-- Witness for C10 at a concrete all-empty search server. -/
theorem claim_C10_witness :
    jql_for_worklogs [] = "id in ()" ∧
    retrieve_issues_for_worklogs emptySearchServer [] ["key"] 1 = some (.ok []) :=
  claim_C10 emptySearchServer ["key"] 1 (by decide) (by decide) rfl rfl


/-! Helper lemmas for the worklog-sync dedup (C3): Python-dict semantics of
insertion, lookup and the accumulation folds. -/
theorem lastV_cons_isSome {α : Type} (b : α) (t : List α) : (lastV (b :: t)).isSome := by
  induction t generalizing b with
  | nil => rfl
  | cons c t ih => simpa [lastV] using ih c

theorem lastV_cons {α : Type} (a : α) (l : List α) :
    lastV (a :: l) = match lastV l with | some x => some x | none => some a := by
  cases l with
  | nil => rfl
  | cons b t =>
    have hs := lastV_cons_isSome b t
    cases h : lastV (b :: t) with
    | none => rw [h] at hs; cases hs
    | some x => simp only [lastV, h]

theorem lastV_append {α : Type} (l1 l2 : List α) :
    lastV (l1 ++ l2) = match lastV l2 with | some x => some x | none => lastV l1 := by
  induction l1 with
  | nil => cases h : lastV l2 <;> simp [lastV, h]
  | cons a t ih =>
    rw [List.cons_append, lastV_cons, ih, lastV_cons]
    cases lastV l2 <;> cases lastV t <;> rfl

theorem dictInsert_keys {W : Type} (m : List (String × W)) (k : String) (v : W) :
    (dictInsert m k v).map Prod.fst
      = if k ∈ m.map Prod.fst then m.map Prod.fst else m.map Prod.fst ++ [k] := by
  induction m with
  | nil => simp [dictInsert]
  | cons p t ih =>
    obtain ⟨k', v'⟩ := p
    by_cases h : k' = k
    · simp [dictInsert, h]
    · have hb : (k' == k) = false := by simp [h]
      simp only [dictInsert, hb, Bool.false_eq_true, if_false, List.map_cons, ih]
      by_cases hmem : k ∈ t.map Prod.fst
      · simp [hmem, Ne.symm h]
      · simp [hmem, Ne.symm h]

theorem dictInsert_nodup {W : Type} (m : List (String × W)) (k : String) (v : W)
    (h : (m.map Prod.fst).Nodup) : ((dictInsert m k v).map Prod.fst).Nodup := by
  rw [dictInsert_keys]
  by_cases hmem : k ∈ m.map Prod.fst
  · simpa [hmem] using h
  · simp [hmem, List.nodup_append, h]

theorem dictInsert_wellKeyed {W : Type} (wid : W → String) (m : List (String × W)) (w : W)
    (h : ∀ p ∈ m, wid p.2 = p.1) : ∀ p ∈ dictInsert m (wid w) w, wid p.2 = p.1 := by
  induction m with
  | nil => simp [dictInsert]
  | cons q t ih =>
    obtain ⟨k', v'⟩ := q
    by_cases hk : k' = wid w
    · have hb : (k' == wid w) = true := by simp [hk]
      simp only [dictInsert, hb, if_true]
      intro p hp
      rcases List.mem_cons.mp hp with h1 | h2
      · subst h1; rfl
      · exact h p (List.mem_cons_of_mem _ h2)
    · have hb : (k' == wid w) = false := by simp [hk]
      simp only [dictInsert, hb, Bool.false_eq_true, if_false]
      intro p hp
      rcases List.mem_cons.mp hp with h1 | h2
      · subst h1; exact h _ (List.mem_cons_self _ _)
      · exact ih (fun q hq => h q (List.mem_cons_of_mem _ hq)) p h2

theorem dictLookup_insert {W : Type} (m : List (String × W)) (k k' : String) (v : W) :
    dictLookup (dictInsert m k v) k' = if k = k' then some v else dictLookup m k' := by
  induction m with
  | nil => simp [dictInsert, dictLookup, beq_iff_eq]
  | cons q t ih =>
    obtain ⟨k0, v0⟩ := q
    by_cases h0 : k0 = k
    · subst h0
      simp only [dictInsert, beq_self_eq_true, if_true, dictLookup, beq_iff_eq]
      by_cases h1 : k0 = k'
      · simp [h1]
      · simp [h1]
    · have hb : (k0 == k) = false := by simp [h0]
      simp only [dictInsert, hb, Bool.false_eq_true, if_false, dictLookup, beq_iff_eq]
      by_cases h1 : k0 = k'
      · subst h1
        have : ¬ k = k0 := fun h => h0 h.symm
        simp [this]
      · simp [h1, ih]

theorem dictLookup_fold_response {W : Type} (wid : W → String) (k : String) :
    ∀ (ws : List W) (m : List (String × W)),
      dictLookup (ws.foldl (fun m wl => dictInsert m (wid wl) wl) m) k
        = match lastV (ws.filter (fun w => wid w == k)) with
          | some w => some w
          | none => dictLookup m k
  | [], m => by simp [lastV]
  | w :: t, m => by
    rw [List.foldl_cons, dictLookup_fold_response wid k t]
    by_cases hwk : wid w = k
    · have hf : List.filter (fun w => wid w == k) (w :: t)
          = w :: List.filter (fun w => wid w == k) t := by simp [hwk]
      rw [hf, lastV_cons, dictLookup_insert, if_pos hwk]
      cases lastV (t.filter (fun w => wid w == k)) <;> rfl
    · have hf : List.filter (fun w => wid w == k) (w :: t)
          = List.filter (fun w => wid w == k) t := by simp [hwk]
      rw [hf, dictLookup_insert, if_neg hwk]

theorem dictLookup_fold_batches {W : Type} (wid : W → String)
    (server : List String → List W) (k : String) :
    ∀ (groups : List (List String)) (m : List (String × W)),
      dictLookup (groups.foldl
          (fun m g => (server g).foldl (fun m wl => dictInsert m (wid wl) wl) m) m) k
        = match lastV ((groups.flatMap server).filter (fun w => wid w == k)) with
          | some w => some w
          | none => dictLookup m k
  | [], m => by simp [lastV]
  | g :: gs, m => by
    rw [List.foldl_cons, dictLookup_fold_batches wid server k gs,
      List.flatMap_cons, List.filter_append, lastV_append,
      dictLookup_fold_response wid k]
    cases lastV ((gs.flatMap server).filter (fun w => wid w == k)) <;>
      cases lastV ((server g).filter (fun w => wid w == k)) <;> rfl

theorem find_map_snd {W : Type} (wid : W → String) (k : String) :
    ∀ (m : List (String × W)), (∀ p ∈ m, wid p.2 = p.1) →
      (m.map Prod.snd).find? (fun w => wid w == k) = dictLookup m k
  | [], _ => rfl
  | (k', v) :: t, h => by
    have hv : wid v = k' := h (k', v) (List.mem_cons_self _ _)
    have ht := find_map_snd wid k t (fun q hq => h q (List.mem_cons_of_mem _ hq))
    by_cases hk : k' = k
    · simp [List.find?, dictLookup, hv, hk]
    · have hb : (k' == k) = false := by simp [hk]
      simp [List.find?, dictLookup, hv, hb, ht]

theorem fold_response_invariant {W : Type} (wid : W → String) :
    ∀ (ws : List W) (m : List (String × W)),
      (m.map Prod.fst).Nodup → (∀ p ∈ m, wid p.2 = p.1) →
      (((ws.foldl (fun m wl => dictInsert m (wid wl) wl) m).map Prod.fst).Nodup ∧
        ∀ p ∈ ws.foldl (fun m wl => dictInsert m (wid wl) wl) m, wid p.2 = p.1)
  | [], m, h1, h2 => ⟨h1, h2⟩
  | w :: t, m, h1, h2 => by
    rw [List.foldl_cons]
    exact fold_response_invariant wid t _ (dictInsert_nodup m (wid w) w h1)
      (dictInsert_wellKeyed wid m w h2)

theorem fold_batches_invariant {W : Type} (wid : W → String)
    (server : List String → List W) :
    ∀ (groups : List (List String)) (m : List (String × W)),
      (m.map Prod.fst).Nodup → (∀ p ∈ m, wid p.2 = p.1) →
      (((groups.foldl
          (fun m g => (server g).foldl (fun m wl => dictInsert m (wid wl) wl) m) m).map
            Prod.fst).Nodup ∧
        ∀ p ∈ groups.foldl
            (fun m g => (server g).foldl (fun m wl => dictInsert m (wid wl) wl) m) m,
          wid p.2 = p.1)
  | [], m, h1, h2 => ⟨h1, h2⟩
  | g :: gs, m, h1, h2 => by
    rw [List.foldl_cons]
    obtain ⟨h1', h2'⟩ := fold_response_invariant wid (server g) m h1 h2
    exact fold_batches_invariant wid server gs _ h1' h2'

theorem retrieve_updated_eq {W : Type} (wid : W → String)
    (server : List String → List W) (ids : List String) :
    retrieve_worklogs_updated_since wid server ids
      = ((ids_in_groups_per_page ids).foldl
          (fun m g => (server g).foldl (fun m wl => dictInsert m (wid wl) wl) m)
          []).map Prod.snd := rfl

def exBulkIds : List String := List.replicate 1000 "A" ++ ["A", "B"]

def exBulkServer : List String → List (String × String) :=
  fun g => g.map (fun i => (i, if g.length == 1000 then "v1" else "v2"))

theorem nodup_map_snd_of_wellKeyed {W : Type} (wid : W → String) (m : List (String × W))
    (h1 : (m.map Prod.fst).Nodup) (h2 : ∀ p ∈ m, wid p.2 = p.1) :
    ((m.map Prod.snd).map wid).Nodup := by
  rw [List.map_map]
  have h3 : m.map (wid ∘ Prod.snd) = m.map Prod.fst :=
    List.map_congr_left (fun p hp => h2 p hp)
  rw [h3]
  exact h1

set_option maxRecDepth 100000 in
/-- C3: for every list of discovered worklog ids and every bulk-fetch server
model, the sync result holds at most one record per worklog id; the record it
holds for an id is the last record with that id in the concatenation of the
batch responses in batch order (last-seen wins, across and within batches);
and concretely, for ids `[A, ..., A, B]` split so that `A` appears in two
batches with different payloads, the result is exactly one record for `A`
with the later payload, and one for `B`. -/
theorem claim_C3 :
    (∀ (W : Type) (wid : W → String) (server : List String → List W) (ids : List String),
      ((retrieve_worklogs_updated_since wid server ids).map wid).Nodup)
    ∧ (∀ (W : Type) (wid : W → String) (server : List String → List W)
        (ids : List String) (k : String),
      (retrieve_worklogs_updated_since wid server ids).find? (fun w => wid w == k)
        = lastV (((ids_in_groups_per_page ids).flatMap server).filter
            (fun w => wid w == k)))
    ∧ retrieve_worklogs_updated_since Prod.fst exBulkServer exBulkIds
        = [("A", "v2"), ("B", "v2")] := by
  refine ⟨?_, ?_, ?_⟩
  · intro W wid server ids
    rw [retrieve_updated_eq]
    obtain ⟨h1, h2⟩ := fold_batches_invariant wid server (ids_in_groups_per_page ids) []
      (by simp) (by simp)
    exact nodup_map_snd_of_wellKeyed wid _ h1 h2
  · intro W wid server ids k
    rw [retrieve_updated_eq,
      find_map_snd wid k _
        (fold_batches_invariant wid server (ids_in_groups_per_page ids) []
          (by simp) (by simp)).2,
      dictLookup_fold_batches wid server k]
    cases lastV (((ids_in_groups_per_page ids).flatMap server).filter
      (fun w => wid w == k)) <;> rfl
  · decide

/-! Cursor pagination on finite chains (C8) and paginator termination (C9). -/

/-- Running the cursor paginator against the chain server from page index
`k` with exactly the remaining number of pages as fuel yields the
concatenation of the remaining pages and issues one request per page. -/
theorem chain_run {R : Type} (pages : List (List R)) :
    ∀ (n k : Nat), k + n = pages.length → 0 < n →
      _get_paginated_results_with_next_page_link (chainServer pages) n k
        = some (.ok ((pages.drop k).flatten, n))
  | 0, _, _, h0 => absurd h0 (by omega)
  | n + 1, k, h, _ => by
    have hk : k < pages.length := by omega
    unfold _get_paginated_results_with_next_page_link
    by_cases hlast : pages.length ≤ k + 1
    · have hn : n = 0 := by omega
      subst hn
      have h1 : (pages.drop k).length = 1 := by rw [List.length_drop]; omega
      obtain ⟨x, hx⟩ := List.length_eq_one.mp h1
      simp [chainServer, hlast, hx]
    · have hrec := chain_run pages n (k + 1) (by omega) (by omega)
      have hdrop : pages.drop k = pages[k] :: pages.drop (k + 1) :=
        List.drop_eq_getElem_cons hk
      simp only [chainServer]
      rw [if_neg (by omega), if_neg (by simp [hlast]), hrec]
      rw [hdrop]
      rfl

/-- C8: for every finite chain of cursor pages the paginator yields the
concatenation of every page's `values` in page order and issues exactly one
request per page (requesting `nextPage` only while `lastPage` is false);
concretely a 2-page chain yields both pages concatenated with exactly 2
requests. -/
theorem claim_C8 :
    (∀ (R : Type) (pages : List (List R)), 0 < pages.length →
      _get_paginated_results_with_next_page_link (chainServer pages) pages.length 0
        = some (.ok (pages.flatten, pages.length)))
    ∧ _get_paginated_results_with_next_page_link (chainServer [[1, 2], [3]]) 2 0
        = some (.ok ([1, 2, 3], 2)) := by
  constructor
  · intro R pages hne
    simpa using chain_run pages pages.length 0 (by omega) hne
  · rfl

/-- Witness for C8 at a concrete 3-page chain. -/
theorem claim_C8_witness :
    _get_paginated_results_with_next_page_link (chainServer [["a"], ["b"], ["c"]]) 3 0
      = some (.ok (["a", "b", "c"], 3)) :=
  claim_C8.1 String [["a"], ["b"], ["c"]] (by simp)

/-- The cursor paginator never finishes against the self-linking non-last
server, whatever the fuel. -/
theorem selfLoop_run_none :
    ∀ fuel, _get_paginated_results_with_next_page_link selfLoopServer fuel () = none := by
  intro fuel
  induction fuel with
  | zero => rfl
  | succ f ih =>
    unfold _get_paginated_results_with_next_page_link
    simp [selfLoopServer, ih]

/-- C9 fails as stated: against a server whose every response is an
individually well-formed page (values, lastPage and nextPage all present)
but which links every page back to itself, the cursor paginator never
terminates, issuing page requests forever. -/
theorem claim_C9_counterexample :
    ¬ ∃ fuel, (_get_paginated_results_with_next_page_link selfLoopServer fuel ()).isSome := by
  rintro ⟨fuel, h⟩
  rw [selfLoop_run_none fuel] at h
  cases h

/-- The offset paginator terminates whenever the server reports one fixed
total and never reports a zero page size: the offset grows by at least one
per iteration, so total-plus-one iterations always suffice. -/
theorem offset_terminates {R : Type} (server : Nat → Nat → OffsetResponse R) (T : Nat)
    (htot : ∀ o m, (server o m).total.getD 0 = T)
    (hmax : ∀ o m, 1 ≤ m → 1 ≤ (server o m).maxResults.getD m) :
    ∀ (fuel rpp count : Nat), 1 ≤ rpp → T ≤ count + fuel → 1 ≤ fuel →
      (_get_paginated_results server fuel rpp count).isSome
  | 0, _, _, _, _, hf => absurd hf (by omega)
  | fuel + 1, rpp, count, hrpp, hcf, _ => by
    unfold _get_paginated_results
    by_cases hst : 400 ≤ (server count rpp).status
    · simp [hst]
    · rw [if_neg hst]
      have hrpp' : 1 ≤ if (server count rpp).maxResults.getD rpp < rpp
          then (server count rpp).maxResults.getD rpp else rpp := by
        have := hmax count rpp hrpp
        split <;> omega
      by_cases hstop : (server count rpp).total.getD 0
          ≤ count + (if (server count rpp).maxResults.getD rpp < rpp
              then (server count rpp).maxResults.getD rpp else rpp)
      · simp [hstop]
      · rw [if_neg hstop]
        have hT := htot count rpp
        have hrec := offset_terminates server T htot hmax fuel
          (if (server count rpp).maxResults.getD rpp < rpp
            then (server count rpp).maxResults.getD rpp else rpp)
          (count + (if (server count rpp).maxResults.getD rpp < rpp
            then (server count rpp).maxResults.getD rpp else rpp))
          hrpp' (by omega) (by omega)
        cases hrun : _get_paginated_results server fuel
            (if (server count rpp).maxResults.getD rpp < rpp
              then (server count rpp).maxResults.getD rpp else rpp)
            (count + (if (server count rpp).maxResults.getD rpp < rpp
              then (server count rpp).maxResults.getD rpp else rpp)) with
        | none => rw [hrun] at hrec; cases hrec
        | some e => cases e with
          | error s => simp [hrun]
          | ok v => simp [hrun]

/-- The cursor paginator terminates whenever the chain of nextPage links
reaches a lastPage response within `n` follows. -/
theorem cursor_terminates {U R : Type} (server : U → CursorResponse U R) :
    ∀ (n : Nat) (u : U), chainEndsWithin server n u = true →
      (_get_paginated_results_with_next_page_link server (n + 1) u).isSome := by
  intro n
  induction n with
  | zero =>
    intro u hc
    unfold _get_paginated_results_with_next_page_link
    by_cases hst : 400 ≤ (server u).status
    · simp [hst]
    · rw [if_neg hst]
      rw [show (server u).lastPage.getD true = true from hc]
      simp
  | succ n ih =>
    intro u hc
    unfold _get_paginated_results_with_next_page_link
    by_cases hst : 400 ≤ (server u).status
    · simp [hst]
    · rw [if_neg hst]
      by_cases hl : (server u).lastPage.getD true
      · simp [hl]
      · rw [if_neg hl]
        unfold chainEndsWithin at hc
        rw [Bool.or_eq_true] at hc
        rcases hc with hc | hc
        · exact absurd hc hl
        · cases hnext : (server u).nextPage with
          | none => rw [hnext] at hc; cases hc
          | some v =>
            rw [hnext] at hc
            have hrec := ih v hc
            cases hrun : _get_paginated_results_with_next_page_link server (n + 1) v with
            | none => rw [hrun] at hrec; cases hrec
            | some e => cases e with
              | error s => simp [hrun]
              | ok p => simp [hrun]

/-- C9 amended: each paginator's iteration is finite under the conditions the
counterexample forces - the offset paginator terminates for every server
model that reports a fixed total and never reports a zero page size, and the
cursor paginator terminates for every server model whose nextPage chain
reaches a lastPage response after finitely many links. -/
theorem claim_C9_amended :
    (∀ (R : Type) (server : Nat → Nat → OffsetResponse R) (T : Nat),
      (∀ o m, (server o m).total.getD 0 = T) →
      (∀ o m, 1 ≤ m → 1 ≤ (server o m).maxResults.getD m) →
      ∃ fuel, (_get_paginated_results server fuel 1000 0).isSome)
    ∧ (∀ (U R : Type) (server : U → CursorResponse U R) (u : U) (n : Nat),
      chainEndsWithin server n u = true →
      ∃ fuel, (_get_paginated_results_with_next_page_link server fuel u).isSome) := by
  constructor
  · intro R server T htot hmax
    exact ⟨T + 1, offset_terminates server T htot hmax (T + 1) 1000 0 (by omega)
      (by omega) (by omega)⟩
  · intro U R server u n hc
    exact ⟨n + 1, cursor_terminates server n u hc⟩

/-- Offset server with a fixed total of 0. -/
def zeroTotalServer : Nat → Nat → OffsetResponse Nat :=
  fun _ _ => { status := 200, results := [], maxResults := some 1000, total := some 0 }

/-- Cursor server answering a single last page. -/
def oneShotServer : Unit → CursorResponse Unit Nat :=
  fun _ => { status := 200, values := [7], lastPage := some true, nextPage := none }

/-- Witness for the amended C9 at concrete terminating servers. -/
theorem claim_C9_amended_witness :
    (∃ fuel, (_get_paginated_results zeroTotalServer fuel 1000 0).isSome)
    ∧ (∃ fuel, (_get_paginated_results_with_next_page_link oneShotServer fuel ()).isSome) :=
  ⟨claim_C9_amended.1 Nat zeroTotalServer 0 (fun _ _ => rfl) (fun _ m hm => by
      simp [zeroTotalServer]),
    claim_C9_amended.2 Unit Nat oneShotServer () 0 rfl⟩

/-! Offset pagination against fixed-total servers (C6) and server page-size caps (C7). -/

/-- Dividing out one chunk: for `c ≤ a`, `a / c` counts one more chunk than
`(a - c) / c`. -/
theorem div_succ_chunk (a c : Nat) (hc : 0 < c) (ha : c ≤ a) :
    a / c = (a - c) / c + 1 := by
  have h1 : a = (a - c) + c := by omega
  conv_lhs => rw [h1]
  rw [Nat.add_div_right _ hc]

/-- Running the offset paginator against the fixed-total page server from
offset `o` yields the remaining records and issues one request per remaining
page. -/
theorem paged_run {R : Type} (L : List R) :
    ∀ (fuel o : Nat), (L.length - o - 1) / 1000 + 1 ≤ fuel →
      ∃ tr, _get_paginated_results (pagedServer L) fuel 1000 o
          = some (.ok (L.drop o, tr)) ∧ tr.length = (L.length - o - 1) / 1000 + 1
  | 0, _, hf => absurd hf (by omega)
  | fuel + 1, o, hf => by
    unfold _get_paginated_results
    simp only [pagedServer]
    rw [if_neg (by omega)]
    simp only [Option.getD_some, lt_irrefl, if_false]
    by_cases hstop : L.length ≤ o + 1000
    · rw [if_pos (by simpa using hstop)]
      refine ⟨[(o, 1000)], ?_, ?_⟩
      · have htake : (L.drop o).take 1000 = L.drop o :=
          List.take_of_length_le (by rw [List.length_drop]; omega)
        rw [htake]
      · have : (L.length - o - 1) / 1000 = 0 := Nat.div_eq_of_lt (by omega)
        simp [this]
    · rw [if_neg (by simpa using hstop)]
      have hdiv : (L.length - o - 1) / 1000 = (L.length - (o + 1000) - 1) / 1000 + 1 := by
        have h1 : L.length - o - 1 - 1000 = L.length - (o + 1000) - 1 := by omega
        rw [div_succ_chunk _ _ (by omega) (by omega), h1]
      obtain ⟨tr, htr, hlen⟩ := paged_run L fuel (o + 1000) (by omega)
      refine ⟨(o, 1000) :: tr, ?_, ?_⟩
      · rw [htr]
        have happ : (L.drop o).take 1000 ++ L.drop (o + 1000) = L.drop o := by
          have hdd : L.drop (o + 1000) = (L.drop o).drop 1000 := by rw [List.drop_drop]
          rw [hdd, List.take_append_drop]
        show some (Except.ok ((L.drop o).take 1000 ++ L.drop (o + 1000), (o, 1000) :: tr))
          = some (Except.ok (L.drop o, (o, 1000) :: tr))
        rw [happ]
      · rw [List.length_cons, hlen, hdiv]

/-- C6: against a server reporting the fixed total `L.length` and serving
pages in order, the offset paginator yields exactly the `L.length` records in
page order, stopping after exactly `(L.length - 1) / 1000 + 1` page requests
(it stops as soon as the running offset reaches the reported total);
concretely a 3-page series of sizes 1000/1000/250 with total 2250 yields
exactly 2250 records in 3 requests. -/
theorem claim_C6 :
    (∀ (R : Type) (L : List R) (fuel : Nat), (L.length - 1) / 1000 + 1 ≤ fuel →
      ∃ tr, _get_paginated_results (pagedServer L) fuel 1000 0 = some (.ok (L, tr)) ∧
        tr.length = (L.length - 1) / 1000 + 1)
    ∧ (∃ tr, _get_paginated_results (pagedServer (List.range 2250)) 3 1000 0
          = some (.ok (List.range 2250, tr)) ∧ tr.length = 3) := by
  constructor
  · intro R L fuel hf
    simpa using paged_run L fuel 0 (by simpa using hf)
  · have hl : (List.range 2250).length = 2250 := List.length_range 2250
    obtain ⟨tr, h1, h2⟩ := paged_run (List.range 2250) 3 0 (by rw [hl])
    refine ⟨tr, by simpa using h1, ?_⟩
    rw [h2, hl]

/-- Witness for C6 at a concrete 5-record server: one page, one request. -/
theorem claim_C6_witness :
    ∃ tr, _get_paginated_results (pagedServer (List.range 5)) 1 1000 0
        = some (.ok (List.range 5, tr)) ∧ tr.length = ((List.range 5).length - 1) / 1000 + 1 :=
  claim_C6.1 Nat (List.range 5) 1 (by decide)

/-- Running the offset paginator against the size-capping server once the
page size has been adopted: every further request carries the capped size. -/
theorem capped_run {R : Type} (L : List R) (cap : Nat) (hcap : 1 ≤ cap) :
    ∀ (fuel o : Nat), (L.length - o - 1) / cap + 1 ≤ fuel →
      ∃ tr, _get_paginated_results (cappedServer L cap) fuel cap o
          = some (.ok (L.drop o, tr)) ∧
        tr.length = (L.length - o - 1) / cap + 1 ∧ ∀ p ∈ tr, p.2 = cap
  | 0, _, hf => absurd hf (Nat.not_succ_le_zero _)
  | fuel + 1, o, hf => by
    unfold _get_paginated_results
    simp only [cappedServer]
    rw [if_neg (by omega)]
    simp only [Option.getD_some, Nat.min_self, lt_irrefl, if_false]
    by_cases hstop : L.length ≤ o + cap
    · rw [if_pos (by simpa using hstop)]
      refine ⟨[(o, cap)], ?_, ?_, ?_⟩
      · have htake : (L.drop o).take cap = L.drop o :=
          List.take_of_length_le (by rw [List.length_drop]; omega)
        rw [htake]
      · have : (L.length - o - 1) / cap = 0 := Nat.div_eq_of_lt (by omega)
        simp [this]
      · simp
    · rw [if_neg (by simpa using hstop)]
      have hdiv : (L.length - o - 1) / cap = (L.length - (o + cap) - 1) / cap + 1 := by
        have h1 : L.length - o - 1 - cap = L.length - (o + cap) - 1 := by omega
        rw [div_succ_chunk _ _ (by omega) (by omega), h1]
      obtain ⟨tr, htr, hlen, hcapreq⟩ := capped_run L cap hcap fuel (o + cap) (by omega)
      refine ⟨(o, cap) :: tr, ?_, ?_, ?_⟩
      · rw [htr]
        have happ : (L.drop o).take cap ++ L.drop (o + cap) = L.drop o := by
          have hdd : L.drop (o + cap) = (L.drop o).drop cap := by rw [List.drop_drop]
          rw [hdd, List.take_append_drop]
        show some (Except.ok ((L.drop o).take cap ++ L.drop (o + cap), (o, cap) :: tr))
          = some (Except.ok (L.drop o, (o, cap) :: tr))
        rw [happ]
      · rw [List.length_cons, hlen, hdiv]
      · intro p hp
        rcases List.mem_cons.mp hp with h1 | h2
        · subst h1; rfl
        · exact hcapreq p h2

/-- C7: if the first response reports a page size `cap` smaller than the 1000
requested, every subsequent request uses the server-reported size `cap` (the
first request still carries 1000), and the records yielded are exactly the
declared total `L`. -/
theorem claim_C7 {R : Type} (L : List R) (cap fuel : Nat)
    (h1 : 1 ≤ cap) (h2 : cap < 1000) (hf : (L.length - 1) / cap + 1 ≤ fuel) :
    ∃ tr, _get_paginated_results (cappedServer L cap) fuel 1000 0 = some (.ok (L, tr)) ∧
      tr.head? = some (0, 1000) ∧ ∀ p ∈ tr.tail, p.2 = cap := by
  have hfuel1 : 1 ≤ fuel := Nat.le_trans (Nat.succ_le_succ (Nat.zero_le _)) hf
  obtain ⟨f, rfl⟩ : ∃ f, fuel = f + 1 := ⟨fuel - 1, by omega⟩
  unfold _get_paginated_results
  simp only [cappedServer]
  rw [if_neg (by omega)]
  have hmin : min 1000 cap = cap := by omega
  simp only [Option.getD_some, hmin, List.drop_zero, Nat.zero_add]
  rw [if_pos h2]
  by_cases hstop : L.length ≤ cap
  · rw [if_pos (by simpa using hstop)]
    refine ⟨[(0, 1000)], ?_, rfl, by simp⟩
    rw [List.take_of_length_le hstop]
  · rw [if_neg (by simpa using hstop)]
    have hdiv : (L.length - 1) / cap = (L.length - cap - 1) / cap + 1 := by
      have hx : L.length - 1 - cap = L.length - cap - 1 := by omega
      rw [div_succ_chunk _ _ (by omega) (by omega), hx]
    obtain ⟨tr, htr, hlen, hcapreq⟩ := capped_run L cap h1 f cap (by omega)
    rw [htr]
    refine ⟨(0, 1000) :: tr, ?_, rfl, ?_⟩
    · show some (Except.ok (L.take cap ++ L.drop cap, (0, 1000) :: tr))
        = some (Except.ok (L, (0, 1000) :: tr))
      rw [List.take_append_drop]
    · simpa using hcapreq

/-- Witness for C7: 250 records with server cap 100 - requests are
`(0, 1000)`, then `(100, 100)` and `(200, 100)`. -/
theorem claim_C7_witness :
    ∃ tr, _get_paginated_results (cappedServer (List.range 250) 100) 3 1000 0
        = some (.ok (List.range 250, tr)) ∧
      tr.head? = some (0, 1000) ∧ ∀ p ∈ tr.tail, p.2 = 100 :=
  claim_C7 (List.range 250) 100 3 (by decide) (by decide) (by rw [List.length_range])

/-! Attribution engine: precedence and name population (C1), partition (C2). -/

/-- When the keys of `l` under `f` are distinct, filtering by one key keeps
at most the first (hence only) match, i.e. the `find?` result. -/
theorem filter_eq_find_toList {α : Type} (f : α → String) (l : List α) (k : String)
    (h : (l.map f).Nodup) :
    l.filter (fun a => f a == k) = (l.find? (fun a => f a == k)).toList := by
  induction l with
  | nil => rfl
  | cons a t ih =>
    rw [List.map_cons, List.nodup_cons] at h
    by_cases hak : f a = k
    · have hft : t.filter (fun a => f a == k) = [] := by
        rw [List.filter_eq_nil_iff]
        intro b hb
        simp only [beq_iff_eq]
        intro hbk
        exact h.1 (by rw [hak, ← hbk]; exact List.mem_map_of_mem f hb)
      simp [List.filter_cons, List.find?, hak, hft]
    · have hb : (f a == k) = false := by simp [hak]
      simp [List.filter_cons, List.find?, hb, ih h.2]

/-- A flatMap whose every image is a singleton is a map. -/
theorem flatMap_singleton_eq_map {α β : Type} (f : α → List β) (g : α → β) (l : List α)
    (h : ∀ a, f a = [g a]) : l.flatMap f = l.map g := by
  induction l with
  | nil => rfl
  | cons a t ih => rw [List.flatMap_cons, h a, ih]; rfl

/-- The single merged row a worklog produces in the worklogs-issues left
merge when issue ids are unique. -/
def row1 (issues : List IssueRow) (w : WorklogRow) : MergedRow :=
  match issue_for issues w with
  | none => { worklog := w }
  | some i => { worklog := w, issue_Id := some i.id, issue_key := some i.key,
                parent_key := i.parent }

/-- With unique issue ids, the worklogs-issues left merge keeps exactly one
row per worklog. -/
theorem merge_worklogs_issues_eq (worklogs : List WorklogRow) (issues : List IssueRow)
    (hI : (issues.map IssueRow.id).Nodup) :
    merge_worklogs_issues worklogs issues = worklogs.map (row1 issues) := by
  apply flatMap_singleton_eq_map
  intro w
  rw [show issues.filter (fun i => i.id == w.issueId)
      = (issues.find? (fun i => i.id == w.issueId)).toList
    from filter_eq_find_toList IssueRow.id issues w.issueId hI]
  unfold row1 issue_for
  cases issues.find? (fun i => i.id == w.issueId) <;> rfl

/-- The single row the tareas left merge produces per input row when task
mapping keys are unique. -/
def row2 (tareas : List TareaRow) (r : MergedRow) : MergedRow :=
  match r.issue_key with
  | none => r
  | some k =>
    match tareas.find? (fun t => t.KEY == k) with
    | none => r
    | some t => { r with Proyecto_Economico_Tareas := some t.Proyecto_Economico,
                         N_Proyecto_Economico := some t.N_Proyecto_Economico }

/-- With unique task mapping keys, the tareas left merge keeps exactly one
row per input row. -/
theorem merge_tareas_eq (tareas : List TareaRow) (rows : List MergedRow)
    (hT : (tareas.map TareaRow.KEY).Nodup) :
    merge_tareas tareas rows = rows.map (row2 tareas) := by
  apply flatMap_singleton_eq_map
  intro r
  cases hk : r.issue_key with
  | none => simp [row2, hk]
  | some k =>
    dsimp only
    rw [show tareas.filter (fun t => t.KEY == k)
        = (tareas.find? (fun t => t.KEY == k)).toList
      from filter_eq_find_toList TareaRow.KEY tareas k hT]
    cases hf : tareas.find? (fun t => t.KEY == k) with
    | none => simp [row2, hk, hf]
    | some t => simp [row2, hk, hf]

/-- The fully merged frame built inside `assign_proyecto_economico` before
the partition. -/
def merged_rows (tareas : List TareaRow) (epicas : List EpicaRow)
    (worklogs : List WorklogRow) (issues : List IssueRow) : List MergedRow :=
  combine_first_pe
    (map_epicas epicas (merge_tareas tareas (merge_worklogs_issues worklogs issues)))

/-- The attribution output is the `notna`/`isna` partition of the merged
frame. -/
theorem assign_eq (tareas : List TareaRow) (epicas : List EpicaRow)
    (worklogs : List WorklogRow) (issues : List IssueRow) :
    assign_proyecto_economico tareas epicas worklogs issues
      = ((merged_rows tareas epicas worklogs issues).filter
            (fun r => r.Proyecto_Economico.isSome),
         (merged_rows tareas epicas worklogs issues).filter
            (fun r => r.Proyecto_Economico.isNone)) := rfl

/-- The complete merged row of one worklog, through all four stages, under
the uniqueness preconditions. -/
def full_row (tareas : List TareaRow) (epicas : List EpicaRow) (issues : List IssueRow)
    (w : WorklogRow) : MergedRow :=
  let r := row2 tareas (row1 issues w)
  let r2 := { r with Proyecto_Economico_Epicas := r.parent_key.bind (epicas_mapping epicas) }
  { r2 with Proyecto_Economico :=
      match r2.Proyecto_Economico_Tareas with
      | some v => some v
      | none => r2.Proyecto_Economico_Epicas }

/-- Under the uniqueness preconditions the merged frame has exactly one row
per input worklog, given by `full_row`. -/
theorem merged_rows_eq (tareas : List TareaRow) (epicas : List EpicaRow)
    (worklogs : List WorklogRow) (issues : List IssueRow)
    (hI : (issues.map IssueRow.id).Nodup) (hT : (tareas.map TareaRow.KEY).Nodup) :
    merged_rows tareas epicas worklogs issues
      = worklogs.map (full_row tareas epicas issues) := by
  unfold merged_rows
  rw [merge_worklogs_issues_eq worklogs issues hI, merge_tareas_eq tareas _ hT]
  unfold map_epicas combine_first_pe
  rw [List.map_map, List.map_map, List.map_map]
  exact List.map_congr_left (fun w _ => rfl)

/-- Field characterization of a worklog's merged row: the final attribution
id is the task-level id when a task mapping matches, else the epic-level id
when the parent key matches the epic mapping, else absent; the name is
populated exactly via the task-level match. -/
theorem full_row_spec (tareas : List TareaRow) (epicas : List EpicaRow)
    (issues : List IssueRow) (w : WorklogRow) :
    (full_row tareas epicas issues w).worklog = w ∧
    (full_row tareas epicas issues w).Proyecto_Economico
      = (match tarea_for tareas issues w with
         | some t => some t.Proyecto_Economico
         | none => epica_id_for epicas issues w) ∧
    (full_row tareas epicas issues w).N_Proyecto_Economico
      = (tarea_for tareas issues w).map TareaRow.N_Proyecto_Economico := by
  unfold full_row tarea_for epica_id_for
  cases hi : issue_for issues w with
  | none => simp [row1, row2, hi]
  | some i =>
    cases ht : tareas.find? (fun t => t.KEY == i.key) with
    | none => simp [row1, row2, hi, ht]
    | some t => simp [row1, row2, hi, ht]

/-- C1: under the uniqueness preconditions on issue ids and task mapping
keys, every row of the attribution output carries as final attribution id
the task-level mapping id when its worklog's issue key has a task mapping
match, else the epic-level mapping id when the issue's parent key has an
epic mapping match, else no id; and the resolved economic-project name is
populated exactly when the task-level match exists. -/
theorem claim_C1 (tareas : List TareaRow) (epicas : List EpicaRow)
    (worklogs : List WorklogRow) (issues : List IssueRow)
    (hI : (issues.map IssueRow.id).Nodup) (hT : (tareas.map TareaRow.KEY).Nodup) :
    ∀ r ∈ (assign_proyecto_economico tareas epicas worklogs issues).1
        ++ (assign_proyecto_economico tareas epicas worklogs issues).2,
      r.Proyecto_Economico
        = (match tarea_for tareas issues r.worklog with
           | some t => some t.Proyecto_Economico
           | none => epica_id_for epicas issues r.worklog)
      ∧ r.N_Proyecto_Economico
        = (tarea_for tareas issues r.worklog).map TareaRow.N_Proyecto_Economico := by
  intro r hr
  rw [assign_eq] at hr
  have hmem : r ∈ merged_rows tareas epicas worklogs issues := by
    rcases List.mem_append.mp hr with h | h
    · exact List.mem_of_mem_filter h
    · exact List.mem_of_mem_filter h
  rw [merged_rows_eq tareas epicas worklogs issues hI hT] at hmem
  obtain ⟨w, _, rfl⟩ := List.mem_map.mp hmem
  obtain ⟨hwk, hpe, hn⟩ := full_row_spec tareas epicas issues w
  rw [hwk, hpe, hn]
  exact ⟨rfl, rfl⟩

/-- A filter and its complement split a list's length. -/
theorem length_filter_add_not {α : Type} (p : α → Bool) (l : List α) :
    (l.filter p).length + (l.filter (fun a => !p a)).length = l.length := by
  induction l with
  | nil => rfl
  | cons a t ih =>
    cases ha : p a <;> simp [List.filter_cons, ha, ← ih] <;> omega

/-- C2: under the uniqueness preconditions, the two outputs of the
attribution engine partition the post-filter input totally and disjointly -
their lengths sum to the input length, and no row is in both. -/
theorem claim_C2 (tareas : List TareaRow) (epicas : List EpicaRow)
    (worklogs : List WorklogRow) (issues : List IssueRow)
    (hI : (issues.map IssueRow.id).Nodup) (hT : (tareas.map TareaRow.KEY).Nodup) :
    ((assign_proyecto_economico tareas epicas worklogs issues).1.length
        + (assign_proyecto_economico tareas epicas worklogs issues).2.length
      = worklogs.length)
    ∧ ∀ r ∈ (assign_proyecto_economico tareas epicas worklogs issues).1,
        r ∉ (assign_proyecto_economico tareas epicas worklogs issues).2 := by
  constructor
  · rw [assign_eq]
    have hnone : (merged_rows tareas epicas worklogs issues).filter
          (fun r => r.Proyecto_Economico.isNone)
        = (merged_rows tareas epicas worklogs issues).filter
          (fun r => !r.Proyecto_Economico.isSome) :=
      List.filter_congr (fun r _ => by cases r.Proyecto_Economico <;> rfl)
    have hlen : (merged_rows tareas epicas worklogs issues).length = worklogs.length := by
      rw [merged_rows_eq tareas epicas worklogs issues hI hT, List.length_map]
    rw [hnone, ← hlen]
    exact length_filter_add_not _ _
  · intro r h1 h2
    rw [assign_eq] at h1 h2
    have hs := (List.mem_filter.mp h1).2
    have hn := (List.mem_filter.mp h2).2
    cases hx : r.Proyecto_Economico with
    | none => rw [hx] at hs; cases hs
    | some v => rw [hx] at hn; cases hn

/-- Concrete example data for the attribution witnesses. -/
def worklogsEx : List WorklogRow := [⟨"1", "10", "Alice", "2024-01-01T09:00:00.000+0100", 3600, "u"⟩]

/-- Concrete example issue list. -/
def issuesEx : List IssueRow := [⟨"10", "T-1", some "E-1", "Proj", "Sum"⟩]

/-- Concrete example task mapping. -/
def tareasEx : List TareaRow := [⟨"T-1", "P1", "Name1"⟩]

/-- Concrete example epic mapping. -/
def epicasEx : List EpicaRow := [⟨"E-1", "P2"⟩]

/-- The merged row the example data produces. -/
def mergedEx : MergedRow :=
  { worklog := ⟨"1", "10", "Alice", "2024-01-01T09:00:00.000+0100", 3600, "u"⟩,
    issue_Id := some "10", issue_key := some "T-1", parent_key := some "E-1",
    Proyecto_Economico_Tareas := some "P1", N_Proyecto_Economico := some "Name1",
    Proyecto_Economico_Epicas := some "P2", Proyecto_Economico := some "P1" }

/-- Witness for C1 at the example data: the matched row resolves to the
task-level id and name despite an epic-level match also existing. -/
theorem claim_C1_witness :
    mergedEx.Proyecto_Economico
      = (match tarea_for tareasEx issuesEx mergedEx.worklog with
         | some t => some t.Proyecto_Economico
         | none => epica_id_for epicasEx issuesEx mergedEx.worklog)
    ∧ mergedEx.N_Proyecto_Economico
      = (tarea_for tareasEx issuesEx mergedEx.worklog).map TareaRow.N_Proyecto_Economico :=
  claim_C1 tareasEx epicasEx worklogsEx issuesEx (by decide) (by decide) mergedEx (by decide)

/-- Witness for C2 at the example data. -/
theorem claim_C2_witness :
    ((assign_proyecto_economico tareasEx epicasEx worklogsEx issuesEx).1.length
        + (assign_proyecto_economico tareasEx epicasEx worklogsEx issuesEx).2.length
      = worklogsEx.length)
    ∧ ∀ r ∈ (assign_proyecto_economico tareasEx epicasEx worklogsEx issuesEx).1,
        r ∉ (assign_proyecto_economico tareasEx epicasEx worklogsEx issuesEx).2 :=
  claim_C2 tareasEx epicasEx worklogsEx issuesEx (by decide) (by decide)
